import Mathlib

/-!
Shallow embedding of `TabAlign.py` (a Sublime Text column-alignment plugin).

Buffers and line texts are `List Char`.  Python `str.find` is modelled by
`strFind`; the Sublime host calls `view.line`, `view.substr`, `view.replace`
and `view.insert` by `lineStartPos`/`lineEndPos`, `pyslice`, `replaceRegion`
and list splicing.  Status messages are modelled by the inductive `StatusMsg`.
The wall-clock watchdog `Timer` is modelled by a fuel parameter: exhausted
fuel corresponds to a timer tick at the head of the corresponding `while`
loop.  Code paths that raise uncaught Python exceptions (the `NameError` on
the undefined `firstpos`, `lines[0]` / `max` on an empty list) are modelled by
`Option`, `none` standing for an exception escaping the command.

One deliberate divergence: the run-extension `while` loop inside
`LineObj.find_next` does not terminate in Python when the delimiter is the
empty string; the embedding (`runEnd`) stops after its fuel instead.  Every
theorem that touches that loop therefore assumes a nonempty delimiter, for
which the fuel `length t + 1` provably simulates the loop exactly.
-/

/-- Python slice `buf[a:b]` for non-negative bounds (clamped like Python). -/
def pyslice (buf : List Char) (a b : Nat) : List Char := (buf.take b).drop a

/-- The test that the string `d` occurs in `t` starting at index `i`, the match
lying inside `t` (Python `t[i:i+len(d)] == d` together with `i + len d ≤ len t`;
the length guard matters only for the empty `d`, which Python finds at every
index up to and including `len t`). -/
def occursAt (t d : List Char) (i : Nat) : Bool :=
  decide (i + d.length ≤ t.length) && List.isPrefixOf d (t.drop i)

/-- Scan `t` for the first occurrence of `d` at an index `≥ i`, trying at most
`fuel` candidate indices.  Helper for `strFind`. -/
def strFindFrom (t d : List Char) : Nat → Nat → Option Nat
  | _, 0 => none
  | i, fuel+1 => if occursAt t d i then some i else strFindFrom t d (i+1) fuel

/-- Python `t.find(d, start)` for a non-negative `start`: the least index
`i ≥ start` at which `d` occurs in `t`, as `some i`; `none` renders Python's
`-1`.  Candidates range over `start ≤ i ≤ length t`, matching Python (the
empty string is found at the very end of the string but not past it). -/
def strFind (t d : List Char) (start : Nat) : Option Nat :=
  strFindFrom t d start (t.length + 1 - start)

/-- Python `d in t` (substring containment, line 191 of the source). -/
def isSubstring (d t : List Char) : Bool := (strFind t d 0).isSome

/-- Sublime `view.line(loc).begin()`: offset of the start of the line holding
`loc`, i.e. the largest `j ≤ loc` that is `0` or is preceded by a newline. -/
def lineStartPos (buf : List Char) : Nat → Nat
  | 0 => 0
  | j+1 => if buf[j]? = some '\n' then j+1 else lineStartPos buf j

/-- Distance to the first newline in a list (the whole length if none). -/
def distToNewline : List Char → Nat
  | [] => 0
  | c :: cs => if c = '\n' then 0 else distToNewline cs + 1

/-- Sublime `view.line(loc).end()`: offset of the first newline at or after
`loc`, or the end of the buffer. -/
def lineEndPos (buf : List Char) (loc : Nat) : Nat :=
  if loc < buf.length then loc + distToNewline (buf.drop loc) else buf.length

/-- Sublime `view.replace(edit, Region(a, b), s)`. -/
def replaceRegion (buf : List Char) (a b : Nat) (s : List Char) : List Char :=
  buf.take a ++ s ++ buf.drop b

/-- The class `LineObj` of `TabAlign.py`: one buffer line with its original
buffer offsets, its mutable working text and the two search cursors.
`__init__` sets `search_start = 0` and `last_find = 0`; the field `endPos`
renders the Python attribute `end` (a Lean keyword). -/
structure LineObj where
  begin : Nat
  endPos : Nat
  text : List Char
  search_start : Nat
  last_find : Int
deriving DecidableEq

/-- The run-extension `while` loop of `LineObj.find_next` (source lines
56-57): starting from a match at `pos`, keep advancing by `len(alignstr)`
while the delimiter immediately recurs at `pos + len(alignstr)`.  The fuel
passed by `find_next` is `length t + 1`, which provably never runs out for a
nonempty delimiter (each step advances `pos` by at least one and `pos` stays
at most `length t`). -/
def runEnd (t d : List Char) : Nat → Nat → Nat
  | pos, 0 => pos
  | pos, fuel+1 =>
    if pos < t.length ∧ strFind t d (pos + d.length) = some (pos + d.length) then
      runEnd t d (pos + d.length) fuel
    else pos

/-- The method `LineObj.find_next` (source lines 35-64), returning
`some (result, updated line)` where `result = -1` renders "not found".
The value `none` renders the `NameError` that evaluating the undefined name
`firstpos` in the dead arm of line 63 would raise. -/
def LineObj.find_next (L : LineObj) (alignstr : List Char) (alignfirst : Bool) :
    Option (Int × LineObj) :=
  match strFind L.text alignstr L.search_start with
  | none => some (-1, { L with search_start := L.text.length })
  | some pos =>
    if pos ≥ L.text.length then some (-1, { L with search_start := L.text.length })
    else
      let L1 := { L with search_start := pos + alignstr.length, last_find := (pos : Int) }
      if alignfirst then some ((pos : Int), L1)
      else
        let q := runEnd L.text alignstr pos (L.text.length + 1)
        let L2 := { L1 with search_start := q + alignstr.length, last_find := (q : Int) }
        if alignfirst then none else some ((q : Int), L2)

/-- Python `min(max(pos, 0), n)`, as a natural number (the clamped value is
non-negative). -/
def clampPos (pos : Int) (n : Nat) : Nat := (min (max pos 0) (n : Int)).toNat

/-- The method `LineObj.insert` (source lines 66-77): clamp the position,
shift the cursors that the insertion point does not exceed, splice the text
through the source's three branches. -/
def LineObj.insert (L : LineObj) (pos : Int) (val : List Char) : LineObj :=
  let p := clampPos pos L.text.length
  { L with
    search_start := if p ≤ L.search_start then L.search_start + val.length else L.search_start
    last_find := if (p : Int) ≤ L.last_find then L.last_find + val.length else L.last_find
    text :=
      if p = 0 then val ++ L.text
      else if p = L.text.length then L.text ++ val
      else L.text.take p ++ val ++ L.text.drop p }

/-- The status messages the plugin can emit through
`view.window().status_message` (the exact wording of the Python strings is
immaterial to the spec, which talks only about which user-facing error is
reported). -/
inductive StatusMsg where
  /-- Line 178: selection spans more than one line (selection mode). -/
  | spanError
  /-- Line 185: the resolved align string is empty (selection mode). -/
  | emptyAlign
  /-- Lines 105, 141, 197, 204: the watchdog `Timer` has ticked. -/
  | timeout
  /-- Line 100: a multi-cursor invocation contains a nonzero-size selection. -/
  | cursorSelErr
deriving DecidableEq

/-- The observable outcome of one command invocation: the status messages
emitted, in order, and the final buffer content. -/
structure RunResult where
  messages : List StatusMsg
  buffer : List Char
deriving DecidableEq

/-- The body of the `for line in lines` loop of `align_by_selected_str`
(source lines 214-219): pad one line to `maxpos`, skipping lines whose
`last_find` is negative (a dead test: `last_find` is never negative) and
lines already at or past `maxpos`. -/
def padLine (maxpos : Int) (L : LineObj) : LineObj :=
  let linepos := L.last_find
  if linepos < 0 then L
  else if linepos < maxpos then
    L.insert linepos (List.replicate (maxpos - linepos).toNat ' ')
  else L

/-- The list comprehension `[line.find_next(alignstr, alignfirst) for line in
lines]` of source line 208, threading the per-line state updates. -/
def findAll (d : List Char) (af : Bool) : List LineObj → Option (List (Int × LineObj))
  | [] => some []
  | L :: ls =>
    match L.find_next d af, findAll d af ls with
    | some r, some rs => some (r :: rs)
    | _, _ => none

/-- The `while True` alignment loop of `align_by_selected_str` (source lines
202-219).  Returns `some (timedOut, lines)`: `timedOut = true` renders the
watchdog branch (fuel exhausted at the head of the loop), `false` the normal
`maxpos < 0` exit.  `none` renders an uncaught exception (`max` of an empty
list, or the unreachable `NameError` inside `find_next`). -/
def alignLoop (d : List Char) (af : Bool) : Nat → List LineObj → Option (Bool × List LineObj)
  | 0, ls => some (true, ls)
  | fuel+1, ls =>
    match findAll d af ls with
    | none => none
    | some rs =>
      let ps := rs.map Prod.fst
      let ls1 := rs.map Prod.snd
      match ps.max? with
      | none => none
      | some mp =>
        if mp < 0 then some (false, ls1)
        else alignLoop d af fuel (ls1.map (padLine mp))

/-- The method `TabAlign.get_line` (source lines 228-233). -/
def get_line (buf : List Char) (loc : Nat) : Option LineObj :=
  if buf.length ≤ loc then none
  else
    some ⟨lineStartPos buf loc, lineEndPos buf loc,
      pyslice buf (lineStartPos buf loc) (lineEndPos buf loc), 0, 0⟩

/-- The line-collection loop of `align_by_selected_str` (source lines
188-198): gather consecutive lines from `start` while they exist and contain
the align string.  The fuel `length buf + 1` passed by the caller is enough:
each step advances `start` past the line's end. -/
def collectLines (buf d : List Char) : Nat → Nat → List LineObj
  | 0, _ => []
  | fuel+1, start =>
    match get_line buf start with
    | none => []
    | some L =>
      if isSubstring d L.text then L :: collectLines buf d fuel (L.endPos + 1)
      else []

/-- Source lines 222-225: join the working texts with newlines. -/
def joinTexts (ls : List LineObj) : List Char :=
  List.intercalate ['\n'] (ls.map LineObj.text)

/-- The method `TabAlign.align_by_selected_str` (source lines 168-226) over a
buffer and a normalized cursor `begin ≤ endPos`.  `fuel` bounds the alignment
loop (the watchdog).  `none` renders an uncaught Python exception
(`lines[0]` on an empty batch); note that the empty-align-string branch of
line 184 emits its message and then falls through, exactly as the source
does (it has no `return`). -/
def align_by_selected_str (buf : List Char) (b e : Nat) (alignfirst : Bool)
    (fuel : Nat) : Option RunResult :=
  let clBegin := lineStartPos buf b
  if lineStartPos buf e ≠ clBegin then some ⟨[StatusMsg.spanError], buf⟩
  else
    let alignstr := if 0 < e - b then pyslice buf b e else pyslice buf b (b+1)
    let msgs0 := if alignstr = [] then [StatusMsg.emptyAlign] else []
    let lines := collectLines buf alignstr (buf.length + 1) clBegin
    match lines.head?, lines.getLast? with
    | some L0, some Ln =>
      match alignLoop alignstr alignfirst fuel lines with
      | none => none
      | some (true, _) => some ⟨msgs0 ++ [StatusMsg.timeout], buf⟩
      | some (false, ls) =>
        some ⟨msgs0, replaceRegion buf L0.begin Ln.endPos (joinTexts ls)⟩
    | _, _ => none

/-- Convenience wrapper used only to state batch-level claims: run the
alignment loop of `align_by_selected_str` on a given list of line texts
(fresh `LineObj`s, as `get_line` would build them) and return the timeout
flag together with the final texts. -/
def alignTexts (texts : List (List Char)) (d : List Char) (af : Bool)
    (fuel : Nat) : Option (Bool × List (List Char)) :=
  (alignLoop d af fuel (texts.map (fun t => ⟨0, 0, t, 0, 0⟩))).map
    (fun r => (r.1, r.2.map LineObj.text))

/-- Sublime `view.rowcol(loc).0`: number of newlines before `loc`. -/
def rowOf (buf : List Char) (loc : Nat) : Nat := (buf.take loc).count '\n'

/-- The dictionary built for each cursor by `get_active_cursors` (source line
139): the region, its begin offset, the containing line region, row, raw
column, and the tab-expanded visual position. -/
structure RichCursor where
  reg : Nat × Nat
  loc : Nat
  line : Nat × Nat
  row : Nat
  col : Nat
  pos : Nat
deriving DecidableEq

/-- Stable insertion into a sorted list: `x` (the earlier element) goes before
the first element `y` for which `le x y` holds.  With a non-strict `le` this
makes `sortedBy` stable, like Python's `sorted`. -/
def insertOrd (le : α → α → Bool) (x : α) : List α → List α
  | [] => [x]
  | y :: ys => if le x y then x :: y :: ys else y :: insertOrd le x ys

/-- Stable sort (Python `sorted` with a key): fold `insertOrd` from the
right, so earlier elements are inserted before equal later ones. -/
def sortedBy (le : α → α → Bool) : List α → List α
  | [] => []
  | x :: xs => insertOrd le x (sortedBy le xs)

/-- The first-selection-per-line grouping of `get_active_cursors` (source
lines 147-157), with `prev` the running `prevline` (initially `-1`): cursors
whose line begin differs from the previous cursor's go to the first
component, the others' regions to the second. -/
def groupFirst : List RichCursor → Int → List RichCursor × List (Nat × Nat)
  | [], _ => ([], [])
  | r :: rs, prev =>
    let rest := groupFirst rs (r.line.1 : Int)
    if (r.line.1 : Int) ≠ prev then (r :: rest.1, rest.2)
    else (rest.1, r.reg :: rest.2)

/-- The method `TabAlign.get_active_cursors` (source lines 128-166) without
its watchdog checks: build the rich cursors, sort ascending by offset, split
off the first cursor of each line, sort those descending by offset, and take
the maximal visual position.  `none` renders `max` of an empty list (not
reachable from a nonempty input). -/
def get_active_cursors (buf : List Char) (tabsize : Nat)
    (regs : List (Nat × Nat)) :
    Option (List RichCursor × List (Nat × Nat) × Nat) :=
  let rich := regs.map (fun reg =>
    let loc := reg.1
    let lb := lineStartPos buf loc
    let le := lineEndPos buf loc
    let col := loc - lb
    let linestr := (pyslice buf lb le).take col
    let pos := col + linestr.count '\t' * (tabsize - 1)
    ⟨reg, loc, (lb, le), rowOf buf loc, col, pos⟩)
  let rich := sortedBy (fun a b => decide (a.loc ≤ b.loc)) rich
  let grouped := groupFirst rich (-1)
  let firsts := sortedBy (fun a b => decide (b.loc ≤ a.loc)) grouped.1
  match (firsts.map RichCursor.pos).max? with
  | none => none
  | some maxpos => some (firsts, grouped.2, maxpos)

/-- The `for selreg in active_cursors` loop of `align_by_cursors` (source
lines 114-126): insert spaces into the buffer at each active cursor and shift
the waiting cursors located at or after each edit. -/
def applyInserts (maxpos : Nat) :
    List RichCursor → List Char × List (Nat × Nat) → List Char × List (Nat × Nat)
  | [], st => st
  | r :: rs, (buf, waiting) =>
    let il := maxpos - r.pos
    let buf2 :=
      if 0 < il then buf.take r.loc ++ List.replicate il ' ' ++ buf.drop r.loc
      else buf
    let waiting2 := waiting.map (fun reg =>
      if r.loc ≤ reg.1 then (reg.1 + il, reg.1 + il) else reg)
    applyInserts maxpos rs (buf2, waiting2)

/-- The `while len(waiting_cursors) > 0` loop of `align_by_cursors` (source
lines 103-126); fuel exhaustion renders the watchdog tick. -/
def cursorsLoop (tabsize : Nat) : Nat → List Char → List (Nat × Nat) → Option RunResult
  | fuel, buf, waiting =>
    if waiting.isEmpty then some ⟨[], buf⟩
    else
      match fuel with
      | 0 => some ⟨[StatusMsg.timeout], buf⟩
      | fuel+1 =>
        match get_active_cursors buf tabsize waiting with
        | none => none
        | some (active, waiting2, maxpos) =>
          let st := applyInserts maxpos active (buf, waiting2)
          cursorsLoop tabsize fuel st.1 st.2

/-- The method `TabAlign.align_by_cursors` (source lines 95-126): cursors are
`(begin, endPos)` offset pairs as delivered by `view.sel()` (the model takes
them already normalized, `begin ≤ endPos`, which is what Sublime's
`Region.begin()/end()` accessors produce).  A cursor of nonzero size aborts
with a status message before any insertion. -/
def align_by_cursors (buf : List Char) (tabsize : Nat)
    (cursors : List (Nat × Nat)) (fuel : Nat) : Option RunResult :=
  let waiting := cursors.map (fun c => (c.1, c.2))
  if cursors.any (fun c => 0 < c.2 - c.1) then some ⟨[StatusMsg.cursorSelErr], buf⟩
  else cursorsLoop tabsize fuel buf waiting

/-- The data-model invariant that actually holds for `LineObj` (the spec's
`lastMatch < length(text)` fails on an empty line, where `__init__` already
sets `last_find = 0 = length(text)`; the correct upper bound is inclusive). -/
def LineInv (L : LineObj) : Prop :=
  L.search_start ≤ L.text.length ∧ 0 ≤ L.last_find ∧ L.last_find ≤ (L.text.length : Int)

theorem occursAt_le (t d : List Char) (i : Nat) (h : occursAt t d i = true) :
    i + d.length ≤ t.length :=
  of_decide_eq_true ((Bool.and_eq_true _ _).mp h).1

theorem strFindFrom_some (t d : List Char) :
    ∀ (fuel i p : Nat), strFindFrom t d i fuel = some p →
      i ≤ p ∧ occursAt t d p = true := by
  intro fuel
  induction fuel with
  | zero => intro i p h; simp [strFindFrom] at h
  | succ f ih =>
    intro i p h
    unfold strFindFrom at h
    by_cases hc : occursAt t d i = true
    · rw [if_pos hc] at h
      cases h
      exact ⟨Nat.le_refl _, hc⟩
    · rw [if_neg hc] at h
      have h2 := ih (i+1) p h
      exact ⟨by omega, h2.2⟩

theorem strFind_some (t d : List Char) (s p : Nat) (h : strFind t d s = some p) :
    s ≤ p ∧ occursAt t d p = true :=
  strFindFrom_some t d _ s p h

theorem strFind_self_iff (t d : List Char) (i : Nat) :
    strFind t d i = some i ↔ occursAt t d i = true := by
  constructor
  · intro h
    exact (strFind_some t d i i h).2
  · intro h
    have hi : i ≤ t.length := by have := occursAt_le t d i h; omega
    obtain ⟨f, hf⟩ : ∃ f, t.length + 1 - i = f + 1 := ⟨t.length - i, by omega⟩
    unfold strFind
    rw [hf]
    unfold strFindFrom
    rw [if_pos h]

theorem runEnd_spec (t d : List Char) (hdl : 0 < d.length) :
    ∀ (fuel pos : Nat), occursAt t d pos = true → t.length - pos < fuel →
    ∃ j, runEnd t d pos fuel = pos + j * d.length ∧
      (∀ k, k ≤ j → occursAt t d (pos + k * d.length) = true) ∧
      occursAt t d (pos + j * d.length + d.length) = false := by
  intro fuel
  induction fuel with
  | zero => intro pos h hf; omega
  | succ f ih =>
    intro pos h hf
    have hlen := occursAt_le t d pos h
    by_cases hc : strFind t d (pos + d.length) = some (pos + d.length)
    · have hocc2 : occursAt t d (pos + d.length) = true := (strFind_self_iff t d _).mp hc
      have hlen2 := occursAt_le t d _ hocc2
      obtain ⟨j, e1, e2, e3⟩ := ih (pos + d.length) hocc2 (by omega)
      refine ⟨j + 1, ?_, ?_, ?_⟩
      · show runEnd t d pos (f+1) = _
        unfold runEnd
        rw [if_pos ⟨by omega, hc⟩, e1]
        ring
      · intro k hk
        cases k with
        | zero => simpa using h
        | succ k2 =>
          have h2 := e2 k2 (by omega)
          have harith : pos + (k2+1) * d.length = pos + d.length + k2 * d.length := by ring
          rw [harith]
          exact h2
      · have harith : pos + (j+1) * d.length + d.length =
            pos + d.length + j * d.length + d.length := by ring
        rw [harith]
        exact e3
    · refine ⟨0, ?_, ?_, ?_⟩
      · show runEnd t d pos (f+1) = _
        unfold runEnd
        rw [if_neg (fun hcon => hc hcon.2)]
        simp
      · intro k hk
        have hk0 : k = 0 := by omega
        subst hk0
        simpa using h
      · simp only [Nat.zero_mul, Nat.add_zero]
        cases hb : occursAt t d (pos + d.length) with
        | false => rfl
        | true => exact absurd ((strFind_self_iff t d _).mpr hb) hc

theorem find_next_cases (L : LineObj) (d : List Char) (af : Bool) (hd : d ≠ []) :
    (strFind L.text d L.search_start = none ∧
      L.find_next d af = some (-1, { L with search_start := L.text.length })) ∨
    (∃ q : Nat, L.search_start < q + d.length ∧ occursAt L.text d q = true ∧
      L.find_next d af = some ((q : Int),
        { L with search_start := q + d.length, last_find := (q : Int) })) := by
  cases hfind : strFind L.text d L.search_start with
  | none =>
    refine Or.inl ⟨rfl, ?_⟩
    unfold LineObj.find_next
    rw [hfind]
  | some p =>
    obtain ⟨hle, hocc⟩ := strFind_some L.text d L.search_start p hfind
    have hlen := occursAt_le L.text d p hocc
    have hdl : 0 < d.length := List.length_pos.mpr hd
    have hplt : ¬ (p ≥ L.text.length) := by omega
    cases af with
    | true =>
      refine Or.inr ⟨p, by omega, hocc, ?_⟩
      simp only [LineObj.find_next, hfind]
      rw [if_neg hplt]
      simp
    | false =>
      obtain ⟨j, e1, e2, e3⟩ :=
        runEnd_spec L.text d hdl (L.text.length + 1) p hocc (by omega)
      have hoccq : occursAt L.text d (p + j * d.length) = true := e2 j (Nat.le_refl j)
      refine Or.inr ⟨p + j * d.length, by omega, hoccq, ?_⟩
      simp only [LineObj.find_next, hfind]
      rw [if_neg hplt]
      simp [e1]

theorem clampPos_le (pos : Int) (n : Nat) : clampPos pos n ≤ n := by
  unfold clampPos
  omega

theorem clampPos_of_bounds (pos : Int) (n : Nat) (h0 : 0 ≤ pos)
    (hn : pos ≤ (n : Int)) : (clampPos pos n : Int) = pos := by
  unfold clampPos
  omega

theorem insert_text_eq (L : LineObj) (pos : Int) (val : List Char) :
    (L.insert pos val).text =
      L.text.take (clampPos pos L.text.length) ++ val ++
        L.text.drop (clampPos pos L.text.length) := by
  show (if clampPos pos L.text.length = 0 then val ++ L.text
      else if clampPos pos L.text.length = L.text.length then L.text ++ val
      else L.text.take (clampPos pos L.text.length) ++ val ++
        L.text.drop (clampPos pos L.text.length)) = _
  by_cases h0 : clampPos pos L.text.length = 0
  · rw [if_pos h0, h0]
    simp
  · rw [if_neg h0]
    by_cases hn : clampPos pos L.text.length = L.text.length
    · rw [if_pos hn, hn]
      simp
    · rw [if_neg hn]

theorem insert_text_length (L : LineObj) (pos : Int) (val : List Char) :
    (L.insert pos val).text.length = L.text.length + val.length := by
  rw [insert_text_eq]
  have := clampPos_le pos L.text.length
  simp
  omega

theorem insert_search_start (L : LineObj) (pos : Int) (val : List Char) :
    (L.insert pos val).search_start =
      if clampPos pos L.text.length ≤ L.search_start then
        L.search_start + val.length
      else L.search_start := rfl

theorem insert_last_find (L : LineObj) (pos : Int) (val : List Char) :
    (L.insert pos val).last_find =
      if (clampPos pos L.text.length : Int) ≤ L.last_find then
        L.last_find + val.length
      else L.last_find := rfl

theorem lineStartPos_le (buf : List Char) : ∀ loc, lineStartPos buf loc ≤ loc := by
  intro loc
  induction loc with
  | zero => simp [lineStartPos]
  | succ j ih =>
    by_cases h : buf[j]? = some '\n'
    · simp [lineStartPos, h]
    · simp only [lineStartPos, h, if_false]
      omega

theorem lineStartPos_gt (buf : List Char) :
    ∀ (loc i : Nat), i < loc → buf[i]? = some '\n' →
      i + 1 ≤ lineStartPos buf loc := by
  intro loc
  induction loc with
  | zero => intro i h _; omega
  | succ j ih =>
    intro i hi hnl
    by_cases hij : i = j
    · subst hij
      simp [lineStartPos, hnl]
    · have hlt : i < j := by omega
      by_cases hj : buf[j]? = some '\n'
      · simp only [lineStartPos, hj, if_pos]
        omega
      · simp only [lineStartPos, hj, if_false]
        exact ih i hlt hnl

theorem findAll_single (d : List Char) (af : Bool) (L : LineObj) (r : Int × LineObj)
    (h : L.find_next d af = some r) : findAll d af [L] = some [r] := by
  simp [findAll, h]

theorem padLine_self (q : Nat) (L : LineObj) (h : L.last_find = (q : Int)) :
    padLine (q : Int) L = L := by
  unfold padLine
  rw [h]
  rw [if_neg (by omega), if_neg (by omega)]

theorem alignLoop_single (d : List Char) (af : Bool) (hd : d ≠ []) :
    ∀ (fuel : Nat) (L : LineObj), L.text.length + 1 - L.search_start < fuel →
    ∃ L2, alignLoop d af fuel [L] = some (false, [L2]) ∧ L2.text = L.text := by
  intro fuel
  induction fuel with
  | zero => intro L h; omega
  | succ f ih =>
    intro L h
    rcases find_next_cases L d af hd with ⟨hfind, heq⟩ | ⟨q, hq, hocc, heq⟩
    · refine ⟨{ L with search_start := L.text.length }, ?_, rfl⟩
      simp only [alignLoop, findAll_single d af L _ heq]
      norm_num [List.max?]
    · have hlen : q + d.length ≤ L.text.length := occursAt_le L.text d q hocc
      obtain ⟨L2, hrec, htext⟩ :=
        ih { L with search_start := q + d.length, last_find := (q : Int) }
          (by simp; omega)
      refine ⟨L2, ?_, by simpa using htext⟩
      simp only [alignLoop, findAll_single d af L _ heq]
      have hmax : List.max? [(q : Int)] = some (q : Int) := rfl
      simp only [List.map_cons, List.map_nil, hmax]
      rw [if_neg (by omega)]
      rw [padLine_self q _ rfl]
      exact hrec

/-- C10: the arm of the final expression of `find_next` that references the
undefined name `firstpos` (modelled by `none`) is unreachable: for every line
tracker, delimiter and flag, `find_next` returns an actual value and never
raises the `NameError` — by the time line 63 runs, `alignfirst` is false. -/
theorem find_next_never_fails (L : LineObj) (d : List Char) (af : Bool) :
    (L.find_next d af).isSome = true := by
  unfold LineObj.find_next
  cases strFind L.text d L.search_start with
  | none => rfl
  | some pos =>
    by_cases h : pos ≥ L.text.length
    · simp [h]
    · cases af <;> simp [h]

/-- C4: `insert` clamps the position into `[0, length text]`, splices the
value into the text at the clamped position (all three source branches agree
with the splice), adds `length val` to `search_start` exactly when the
clamped position is at most `search_start`, adds `length val` to `last_find`
exactly when the clamped position is at most `last_find`, and leaves the
buffer offsets untouched. -/
theorem insert_spec (L : LineObj) (pos : Int) (val : List Char) :
    clampPos pos L.text.length ≤ L.text.length ∧
    (0 ≤ pos → pos ≤ (L.text.length : Int) →
      (clampPos pos L.text.length : Int) = pos) ∧
    (L.insert pos val).text =
      L.text.take (clampPos pos L.text.length) ++ val ++
        L.text.drop (clampPos pos L.text.length) ∧
    (L.insert pos val).search_start =
      (if clampPos pos L.text.length ≤ L.search_start then
        L.search_start + val.length
      else L.search_start) ∧
    (L.insert pos val).last_find =
      (if (clampPos pos L.text.length : Int) ≤ L.last_find then
        L.last_find + val.length
      else L.last_find) ∧
    (L.insert pos val).begin = L.begin ∧ (L.insert pos val).endPos = L.endPos :=
  ⟨clampPos_le pos L.text.length, clampPos_of_bounds pos L.text.length,
    insert_text_eq L pos val, insert_search_start L pos val,
    insert_last_find L pos val, rfl, rfl⟩

/-- C3: with `alignfirst = false` and a nonempty delimiter, whenever the
search finds the delimiter at or after `search_start` (at first position
`p`), `find_next` returns the position `q` of the last occurrence of the
maximal run of immediately-adjacent occurrences starting at `p`, records
`last_find = q`, and advances `search_start` to `q + length d`.  (The
delimiter is assumed nonempty: on the empty string the Python run loop does
not terminate at all.) -/
theorem find_next_returns_run_end (L : LineObj) (d : List Char) (p : Nat)
    (hd : d ≠ []) (hp : strFind L.text d L.search_start = some p) :
    ∃ (q j : Nat),
      L.find_next d false =
        some ((q : Int),
          { L with search_start := q + d.length, last_find := (q : Int) }) ∧
      q = p + j * d.length ∧
      (∀ k, k ≤ j → occursAt L.text d (p + k * d.length) = true) ∧
      occursAt L.text d (q + d.length) = false := by
  obtain ⟨hle, hocc⟩ := strFind_some L.text d L.search_start p hp
  have hlen := occursAt_le L.text d p hocc
  have hdl : 0 < d.length := List.length_pos.mpr hd
  have hplt : ¬ (p ≥ L.text.length) := by omega
  obtain ⟨j, e1, e2, e3⟩ :=
    runEnd_spec L.text d hdl (L.text.length + 1) p hocc (by omega)
  refine ⟨p + j * d.length, j, ?_, rfl, e2, e3⟩
  simp only [LineObj.find_next, hp]
  rw [if_neg hplt]
  simp [e1]

/-- Witness for `find_next_returns_run_end` on the line `"a||b"` with
delimiter `"|"`: the first match is at 1 and the run ends at 2. -/
theorem find_next_returns_run_end_witness :
    ∃ (q j : Nat),
      LineObj.find_next ⟨0, 0, "a||b".toList, 0, 0⟩ ("|".toList) false =
        some ((q : Int),
          { (⟨0, 0, "a||b".toList, 0, 0⟩ : LineObj) with
              search_start := q + ("|".toList).length, last_find := (q : Int) }) ∧
      q = 1 + j * ("|".toList).length ∧
      (∀ k, k ≤ j →
        occursAt ("a||b".toList) ("|".toList) (1 + k * ("|".toList).length) = true) ∧
      occursAt ("a||b".toList) ("|".toList) (q + ("|".toList).length) = false :=
  find_next_returns_run_end ⟨0, 0, "a||b".toList, 0, 0⟩ ("|".toList) 1
    (by decide) (by decide)

/-- C6: if the initiating selection spans more than one line (there is a
newline strictly between its begin and its end), `align_by_selected_str`
reports the span error and leaves the buffer untouched — the status message
is the only observable effect. -/
theorem multiline_selection_aborts (buf : List Char) (b i e : Nat)
    (af : Bool) (fuel : Nat) (hbi : b ≤ i) (hie : i < e)
    (hnl : buf[i]? = some '\n') :
    align_by_selected_str buf b e af fuel = some ⟨[StatusMsg.spanError], buf⟩ := by
  have h1 : lineStartPos buf b ≤ b := lineStartPos_le buf b
  have h2 : i + 1 ≤ lineStartPos buf e := lineStartPos_gt buf e i hie hnl
  have hne : lineStartPos buf e ≠ lineStartPos buf b := by omega
  unfold align_by_selected_str
  rw [if_pos hne]

/-- Witness for `multiline_selection_aborts`: selecting the whole of `"a\n"`
inside the buffer `"a\nb"` spans two lines. -/
theorem multiline_selection_aborts_witness :
    align_by_selected_str ("a\nb".toList) 0 2 false 5 =
      some ⟨[StatusMsg.spanError], "a\nb".toList⟩ :=
  multiline_selection_aborts ("a\nb".toList) 0 1 2 false 5
    (by decide) (by decide) (by decide)

/-- C7: if any cursor handed to `align_by_cursors` has nonzero size, the
command reports the error and returns before any insertion: the buffer is
returned unchanged whatever the other cursors are. -/
theorem nonzero_cursor_aborts (buf : List Char) (tabsize : Nat)
    (cursors : List (Nat × Nat)) (fuel : Nat)
    (h : ∃ c ∈ cursors, c.1 < c.2) :
    align_by_cursors buf tabsize cursors fuel =
      some ⟨[StatusMsg.cursorSelErr], buf⟩ := by
  obtain ⟨c, hc, hlt⟩ := h
  have hany : cursors.any (fun c => decide (0 < c.2 - c.1)) = true :=
    List.any_eq_true.mpr ⟨c, hc, by simp; omega⟩
  unfold align_by_cursors
  simp only [hany, if_true]

/-- Witness for `nonzero_cursor_aborts`: one range selection among the
cursors. -/
theorem nonzero_cursor_aborts_witness :
    align_by_cursors ("ab".toList) 4 [(0, 1), (2, 2)] 3 =
      some ⟨[StatusMsg.cursorSelErr], "ab".toList⟩ :=
  nonzero_cursor_aborts ("ab".toList) 4 [(0, 1), (2, 2)] 3
    ⟨(0, 1), by decide, by decide⟩

/-- Counterexample to C9 as stated: `get_line` on the buffer `"\n"` produces
a line tracker with empty text, and at creation `last_find = 0` already
violates `-1 ≤ lastMatch < length(text)` (the strict upper bound fails). -/
theorem lineInv_empty_text_cex :
    get_line ['\n'] 0 = some ⟨0, 0, [], 0, 0⟩ ∧
    ¬ ((-1 : Int) ≤ (⟨0, 0, [], 0, 0⟩ : LineObj).last_find ∧
        (⟨0, 0, [], 0, 0⟩ : LineObj).last_find <
          ((⟨0, 0, [], 0, 0⟩ : LineObj).text.length : Int)) := by
  exact ⟨rfl, by decide⟩

/-- C9 amended: the invariant that actually holds and is preserved is
`0 ≤ search_start ≤ length(text)` and `0 ≤ last_find ≤ length(text)` (upper
bound inclusive, since `__init__` sets `last_find = 0` even on an empty
line): it holds at creation and is preserved by every `find_next` with a
nonempty delimiter and by every `insert`. -/
theorem lineObj_invariant_amended :
    (∀ (b e : Nat) (t : List Char), LineInv ⟨b, e, t, 0, 0⟩) ∧
    (∀ (L : LineObj) (d : List Char) (af : Bool) (r : Int) (L2 : LineObj),
      d ≠ [] → LineInv L → L.find_next d af = some (r, L2) → LineInv L2) ∧
    (∀ (L : LineObj) (pos : Int) (val : List Char),
      LineInv L → LineInv (L.insert pos val)) := by
  refine ⟨?_, ?_, ?_⟩
  · intro b e t
    exact ⟨Nat.zero_le _, le_refl 0, Int.natCast_nonneg _⟩
  · intro L d af r L2 hd hInv heq
    rcases find_next_cases L d af hd with ⟨_, heq2⟩ | ⟨q, _, hocc, heq2⟩
    · rw [heq] at heq2
      cases heq2
      exact ⟨Nat.le_refl _, hInv.2.1, hInv.2.2⟩
    · rw [heq] at heq2
      cases heq2
      have hlen := occursAt_le L.text d q hocc
      refine ⟨?_, ?_, ?_⟩
      · show q + d.length ≤ L.text.length
        exact hlen
      · show (0 : Int) ≤ (q : Int)
        exact Int.natCast_nonneg q
      · show ((q : Nat) : Int) ≤ (L.text.length : Int)
        exact_mod_cast by omega
  · intro L pos val hInv
    obtain ⟨h1, h2, h3⟩ := hInv
    have hc := clampPos_le pos L.text.length
    have hlen := insert_text_length L pos val
    refine ⟨?_, ?_, ?_⟩
    · rw [insert_search_start, hlen]
      split <;> omega
    · rw [insert_last_find]
      split <;> omega
    · rw [insert_last_find, hlen]
      split <;> push_cast <;> omega

/-- Witness for `lineObj_invariant_amended`, instantiating all three parts:
creation, one successful `find_next` on `"a|b"`, one `insert`. -/
theorem lineObj_invariant_amended_witness :
    LineInv ⟨0, 0, "a|b".toList, 0, 0⟩ ∧
    LineInv ⟨0, 0, "a|b".toList, 2, 1⟩ ∧
    LineInv (LineObj.insert ⟨0, 0, "a".toList, 0, 0⟩ 0 [' ']) :=
  ⟨lineObj_invariant_amended.1 0 0 ("a|b".toList),
    lineObj_invariant_amended.2.1 ⟨0, 0, "a|b".toList, 0, 0⟩ ("|".toList) false
      1 ⟨0, 0, "a|b".toList, 2, 1⟩ (by decide)
      (lineObj_invariant_amended.1 0 0 ("a|b".toList)) (by decide),
    lineObj_invariant_amended.2.2 ⟨0, 0, "a".toList, 0, 0⟩ 0 [' ']
      (lineObj_invariant_amended.1 0 0 ("a".toList))⟩

/-- C1, evaluation at the failing input: in the batch
`["a|b", "a|b|cc|d"]` with delimiter `"|"` and `alignfirst = false`, the
first line is exhausted after the first column, yet the later passes keep
padding it at its stale `last_find` (the `linepos < 0` skip in the source is
dead code because `find_next` never sets `last_find` to `-1`); the final
text of the exhausted line is `"a     |b"` instead of the untouched
`"a|b"`. -/
theorem exhausted_line_padded_eval :
    alignTexts ["a|b".toList, "a|b|cc|d".toList] ("|".toList) false 10 =
      some (false, ["a     |b".toList, "a|b|cc|d".toList]) ∧
    "a     |b".toList ≠ "a|b".toList := by decide

/-- Counterexample to C2 as stated: on the spec's concrete input with
`alignfirst = false` the program returns
`["this|is||a   |table", "it| |has|some|values"]` (run-collapsing keeps the
`||` group together), not the output the claim lists. -/
theorem table_alignLast_ne_spec :
    alignTexts ["this|is||a|table".toList, "it||has|some|values".toList]
        ("|".toList) false 20 =
      some (false, ["this|is||a   |table".toList, "it| |has|some|values".toList]) ∧
    (["this|is||a   |table".toList, "it| |has|some|values".toList] : List (List Char)) ≠
      ["this|is|   |a   |table".toList, "it  |  |has|some|values".toList] := by decide

/-- C2 amended: the listed output is exactly what the program produces on
that input with `alignfirst = true` (the first-occurrence policy). -/
theorem table_alignFirst_eq_spec :
    alignTexts ["this|is||a|table".toList, "it||has|some|values".toList]
        ("|".toList) true 20 =
      some (false, ["this|is|   |a   |table".toList, "it  |  |has|some|values".toList]) := by
  decide

/-- Counterexample to C8 as stated: aligning `["a||b", "aaa|b"]` on `"|"`
once yields `["a| |b", "aaa|b"]` (padding is inserted inside the `||` run,
splitting it); a second run then sees the first `|` as a separate earlier
column and inserts further spaces, producing `["a  | |b", "aaa  |b"]`. -/
theorem align_not_idempotent_cex :
    alignTexts ["a||b".toList, "aaa|b".toList] ("|".toList) false 10 =
      some (false, ["a| |b".toList, "aaa|b".toList]) ∧
    alignTexts ["a| |b".toList, "aaa|b".toList] ("|".toList) false 10 =
      some (false, ["a  | |b".toList, "aaa  |b".toList]) ∧
    (["a  | |b".toList, "aaa  |b".toList] : List (List Char)) ≠
      ["a| |b".toList, "aaa|b".toList] := by decide

/-- C8 amended: delimiter-alignment is not idempotent in general (padding
can split a delimiter run), but on a single-line batch it inserts nothing
at all — the loop terminates normally with the text unchanged — so repeated
runs are trivially no-ops there. -/
theorem align_single_line_noop (t d : List Char) (af : Bool) (fuel : Nat)
    (hd : d ≠ []) (hfuel : t.length + 2 ≤ fuel) :
    alignTexts [t] d af fuel = some (false, [t]) := by
  obtain ⟨L2, h1, h2⟩ :=
    alignLoop_single d af hd fuel ⟨0, 0, t, 0, 0⟩ (by simp; omega)
  unfold alignTexts
  simp [h1, h2]

/-- Witness for `align_single_line_noop`. -/
theorem align_single_line_noop_witness :
    alignTexts ["ab|c".toList] ("|".toList) false 10 =
      some (false, ["ab|c".toList]) :=
  align_single_line_noop ("ab|c".toList) ("|".toList) false 10
    (by decide) (by decide)

/-- C5, evaluation at the failing input: a zero-width cursor at the very end
of the buffer `"ab"` resolves to an empty align string; the code emits the
status message but, lacking a `return`, falls through into line collection
and the alignment loop, which never terminates normally for an empty
delimiter — here (`alignfirst = true`) the watchdog message follows and only
then does the command return, with the buffer unchanged. -/
theorem emptyAlignstr_continues_eval :
    align_by_selected_str ("ab".toList) 2 2 true 5 =
      some ⟨[StatusMsg.emptyAlign, StatusMsg.timeout], "ab".toList⟩ := by decide

/-- Witness for `insert_spec`: the splice equation at a concrete out-of-range
position (clamped to the end of `"ab"`). -/
theorem insert_spec_witness :
    (LineObj.insert ⟨0, 0, "ab".toList, 1, 0⟩ 5 [' ']).text =
      ("ab".toList).take (clampPos 5 ("ab".toList).length) ++ [' '] ++
        ("ab".toList).drop (clampPos 5 ("ab".toList).length) :=
  (insert_spec ⟨0, 0, "ab".toList, 1, 0⟩ 5 [' ']).2.2.1
